import Mathlib

/-!
# OpenCodeCLI — verification of the agentic tool-calling core

A shallow embedding of the conversation orchestrator (`Agent.chat`), the
tool dispatcher (`ToolExecutor.execute` and its helpers), and the transport
client (`LLMClient.chat` and its streaming parser), translated from the
TypeScript sources `tools.ts`, `llm-client.ts`, `audit.ts` and the agent
module.  External effects (filesystem, shell, network, JSON decoding,
random id generation) are supplied as explicit oracle parameters; all
control flow, string handling and state is translated from the source.
-/

namespace OpenCode

/-! ## Data model (`tools.ts`, `llm-client.ts`) -/

/-- `ToolCall.function`: `{name, arguments}` where `arguments` is a JSON string. -/
structure ToolCallFunction where
  name : String
  arguments : String
deriving Repr, DecidableEq

/-- `ToolCall`: `{function, id?}` — the id is optional. -/
structure ToolCall where
  function : ToolCallFunction
  id : Option String
deriving Repr, DecidableEq

/-- `ToolResult`: `{tool_call_id, role: 'tool', name, content}` (role is fixed). -/
structure ToolResult where
  tool_call_id : String
  name : String
  content : String
deriving Repr, DecidableEq

/-- Message roles of `llm-client.ts`. -/
inductive Role where
  | system
  | user
  | assistant
  | tool
deriving Repr, DecidableEq

/-- `Message`: `{role, content: string|null, tool_calls?, tool_call_id?, name?}`. -/
structure Message where
  role : Role
  content : Option String
  tool_calls : Option (List ToolCall) := none
  tool_call_id : Option String := none
  name : Option String := none
deriving Repr, DecidableEq

/-! ## JavaScript string primitives

The dispatcher uses `String.prototype.includes`, `split` and `replace`
(string pattern).  These are embedded with JavaScript semantics over the
character lists of the strings: `includes` of the empty string is always
true; `split` on the empty string yields one element per character;
`replace` with a string pattern replaces only the first occurrence;
`split` on a non-empty separator cuts at leftmost non-overlapping
occurrences.  Structural (fuel-based where needed) recursion keeps every
definition kernel-reducible. -/

/-- Does `sub` occur as a contiguous run inside `s`?  (`[]` occurs in
everything, as JS `includes("")` is always true.) -/
def infixCheck : List Char → List Char → Bool
  | sub, [] => sub.isEmpty
  | sub, c :: rest => sub.isPrefixOf (c :: rest) || infixCheck sub rest

/-- JS `s.includes(sub)`. -/
def jsIncludes (s sub : String) : Bool :=
  infixCheck sub.data s.data

/-- Leftmost non-overlapping occurrence count of a non-empty `sub` in `s`,
with fuel (fuel `≥ s.length + 1` is always enough since each occurrence
consumes at least one character). -/
def countOccGo (fuel : Nat) (sub : List Char) : List Char → Nat
  | [] => 0
  | c :: rest =>
    match fuel with
    | 0 => 0
    | f + 1 =>
      if sub.isPrefixOf (c :: rest) then
        1 + countOccGo f sub ((c :: rest).drop sub.length)
      else
        countOccGo f sub rest

/-- Length of the array JS `s.split(sub)` returns: one more than the
occurrence count for a non-empty separator, one element per character for
the empty separator. -/
def jsSplitCount (s sub : String) : Nat :=
  if sub = "" then s.length
  else countOccGo (s.data.length + 1) sub.data s.data + 1

/-- Replace the leftmost occurrence of (non-empty) `sub` by `repl`. -/
def replaceFirstGo (sub repl : List Char) : List Char → List Char
  | [] => []
  | c :: rest =>
    if sub.isPrefixOf (c :: rest) then repl ++ (c :: rest).drop sub.length
    else c :: replaceFirstGo sub repl rest

/-- JS `s.replace(sub, repl)` with a string pattern: first occurrence only. -/
def jsReplaceFirst (s sub repl : String) : String :=
  if sub = "" then repl ++ s
  else ⟨replaceFirstGo sub.data repl.data s.data⟩

/-! ## `ToolExecutor.editFile` (`tools.ts` lines 534–553)

The filesystem read is factored out: `content` is the file's current
content.  `newContent = none` models the error return where no write
happens; otherwise the returned content is what gets written back. -/

structure EditOutcome where
  newContent : Option String
  message : String
deriving Repr, DecidableEq

def editFile (filePath content oldText newText : String) : EditOutcome :=
  if !(jsIncludes content oldText) then
    { newContent := none
      message := "Error: Could not find the specified text in " ++ filePath ++
        ". Make sure to use exact matching text." }
  else
    let occurrences : Int := (jsSplitCount content oldText : Int) - 1
    { newContent := some (jsReplaceFirst content oldText newText)
      message := "Successfully edited " ++ filePath ++ ". Replaced " ++
        toString occurrences ++ " occurrence(s)." }

/-! ## `ToolExecutor.runCommand` approval gate (`tools.ts` lines 382–412)

The dry-run short-circuit happens in `execute` before `runCommand` is
reached, so this models the dry-run-off path.  The interactive prompt
(`readlineSync.question`) and the shell (`execAsync`) are oracle
parameters: `answer` is what the prompt would return, `shell` is the
combined stdout/stderr text of executing a command.  The outcome
constructor records whether the shell was invoked at all. -/

def dropLeadingWs : List Char → List Char
  | [] => []
  | c :: r => if c.isWhitespace then dropLeadingWs r else c :: r

def takeUntilWs : List Char → List Char
  | [] => []
  | c :: r => if c.isWhitespace then [] else c :: takeUntilWs r

/-- JS `command.trim().split(/\s+/)[0] || ''`: the first
whitespace-delimited token (empty when the command is all whitespace). -/
def firstToken (command : String) : String :=
  ⟨takeUntilWs (dropLeadingWs command.data)⟩

/-- JS `toLowerCase` (character-wise). -/
def jsToLower (s : String) : String :=
  ⟨s.data.map Char.toLower⟩

/-- JS `trim`. -/
def jsTrim (s : String) : String :=
  ⟨((s.data.dropWhile Char.isWhitespace).reverse.dropWhile Char.isWhitespace).reverse⟩

/-- `const cmdBase = (command.trim().split(/\s+/)[0] || '').toLowerCase()`. -/
def cmdBaseOf (command : String) : String :=
  jsToLower (firstToken command)

/-- Constructor normalization of the allowlist:
`new Set((options?.allowlistCommands ?? []).map(c => c.toLowerCase().trim()))`.
Only membership and emptiness of the set are ever consulted, so a list
models it. -/
def normalizedAllowlist (allowlist : List String) : List String :=
  allowlist.map (fun c => jsTrim (jsToLower c))

inductive ShellOutcome where
  /-- the shell ran the command and produced this text -/
  | ran (output : String)
  /-- refused by the allowlist; the shell was never invoked -/
  | allowlistDenied (text : String)
  /-- refused at the interactive prompt; the shell was never invoked -/
  | userDenied (text : String)
deriving Repr, DecidableEq

def runCommand (autoApprove : Bool) (allowlist : List String) (answer : String)
    (shell : String → String) (command : String) : ShellOutcome :=
  let cmdBase := cmdBaseOf command
  let allow := normalizedAllowlist allowlist
  let isAllowlisted := !allow.isEmpty && allow.contains cmdBase
  let shouldAutoApprove := autoApprove && (allow.isEmpty || isAllowlisted)
  if !shouldAutoApprove then
    if autoApprove && !allow.isEmpty && !isAllowlisted then
      .allowlistDenied ("Command \"" ++ cmdBase ++
        "\" not in allowlist. Use --allow \"cmd1,cmd2\" to add.")
    else if jsToLower answer ≠ "y" then
      .userDenied "User denied command execution."
    else
      .ran (shell command)
  else
    .ran (shell command)

/-! ## `LLMClient.chat` retry loop (`llm-client.ts` lines 45–110)

One loop iteration (build request, fetch with watchdog, check status,
parse) is abstracted as an oracle `Nat → Except JsError Message`: the
outcome of attempt number `attempt` — either the parsed assistant message
or the JavaScript error thrown (fetch failure, abort, or the `API Error
{status}: {text}` error built from a non-ok response).  The model returns
the loop's final outcome together with the list of backoff delays slept,
in order. -/

/-- A thrown JavaScript error, as consulted by the classifier: its `name`
and `message`. -/
structure JsError where
  name : String
  message : String
deriving Repr, DecidableEq

/-- JS `s.startsWith(p)`. -/
def jsStartsWith (s p : String) : Bool :=
  p.data.isPrefixOf s.data

/-- The retryable-failure classifier (`llm-client.ts` lines 92–97):
`error.name === 'AbortError' || (error.message && (… ECONNRESET … ||
… ETIMEDOUT … || … fetch failed … || … startsWith('API Error 5')))`. -/
def isRetryable (e : JsError) : Bool :=
  e.name == "AbortError" ||
  (e.message != "" &&
    (jsIncludes e.message "ECONNRESET" ||
     jsIncludes e.message "ETIMEDOUT" ||
     jsIncludes e.message "fetch failed" ||
     jsStartsWith e.message "API Error 5"))

/-- The error thrown for a non-ok HTTP response:
`new Error(\`API Error ${status}: ${text}\`)`. -/
def apiError (status : Nat) (text : String) : JsError :=
  { name := "Error", message := "API Error " ++ toString status ++ ": " ++ text }

/-- `Math.min(1000 * Math.pow(2, attempt), 10000)` — backoff before the
retry that follows failed attempt number `attempt`. -/
def backoffDelay (attempt : Nat) : Nat :=
  min (1000 * 2 ^ attempt) 10000

/-- `config.retries ?? 3`. -/
def defaultMaxRetries : Nat := 3

/-- The retry loop from attempt number `attempt` with `remaining =
maxRetries - attempt` retries left (`attempt < maxRetries` in the source
is `remaining > 0` here).  Returns the final outcome and the backoff
delays slept, in order. -/
def chatGo (oracle : Nat → Except JsError Message) (attempt : Nat) :
    Nat → Except JsError Message × List Nat
  | 0 =>
    match oracle attempt with
    | .ok m => (.ok m, [])
    | .error e => (.error e, [])
  | r + 1 =>
    match oracle attempt with
    | .ok m => (.ok m, [])
    | .error e =>
      if isRetryable e then
        let rest := chatGo oracle (attempt + 1) r
        (rest.1, backoffDelay attempt :: rest.2)
      else
        (.error e, [])

/-- `LLMClient.chat`: the full loop, `for (attempt = 0; attempt <=
maxRetries; attempt++)`. -/
def chatModel (oracle : Nat → Except JsError Message) (maxRetries : Nat) :
    Except JsError Message × List Nat :=
  chatGo oracle 0 maxRetries

/-- Concrete attempt oracle for witnesses: a 500 response on attempt 0,
success on every later attempt. -/
def retryExOracle : Nat → Except JsError Message
  | 0 => .error (apiError 500 "boom")
  | _ + 1 => .ok { role := .assistant, content := some "hi" }

/-! ## `LLMClient.parseStreamResponse` (`llm-client.ts` lines 112–160)

The byte-buffering, newline splitting, `data: ` markers and JSON decoding
are external I/O; the loop body runs once per successfully decoded
payload, consuming `json.choices?.[0]?.delta`.  The model therefore
processes a list of decoded `delta` objects in arrival order.  JavaScript
truthiness guards (`delta?.content`, `tc.id`, `tc.function?.name`,
`tc.function?.arguments`) mean an absent field and an empty string act
alike.  The per-index accumulator `toolCallsAccum` is a JS object with
non-negative integer keys; `Object.values` enumerates such keys in
ascending numeric order, which the model realizes by keeping the
association list sorted by key on insertion. -/

/-- One element of a `delta.tool_calls` array: `{index?, id?, function?:
{name?, arguments?}}`. -/
structure ToolCallDelta where
  index : Option Nat := none
  id : Option String := none
  name : Option String := none
  arguments : Option String := none
deriving Repr, DecidableEq

/-- One decoded `choices[0].delta` payload. -/
structure Delta where
  content : Option String := none
  tool_calls : Option (List ToolCallDelta) := none
deriving Repr, DecidableEq

/-- One `toolCallsAccum[idx]` entry: `{ id?, name?, args }` (created as
`{args: ''}`). -/
structure Accum where
  id : Option String := none
  name : Option String := none
  args : String := ""
deriving Repr, DecidableEq

/-- JS truthiness of an optional string field: absent, `null` and `""`
are all falsy. -/
def truthy : Option String → Option String
  | none => none
  | some v => if v = "" then none else some v

/-- Parser state: accumulated content, the per-index accumulator (sorted
by key), and the chunk-sink invocations so far, in order. -/
structure StreamState where
  content : String
  accum : List (Nat × Accum)
  chunks : List String
deriving Repr, DecidableEq

def lookupAccum (m : List (Nat × Accum)) (i : Nat) : Option Accum :=
  (m.find? (fun p => p.1 == i)).map Prod.snd

/-- Insert or replace the entry for key `i`, keeping the list sorted by
key (JS integer-key enumeration order). -/
def insertAccum (i : Nat) (a : Accum) : List (Nat × Accum) → List (Nat × Accum)
  | [] => [(i, a)]
  | (j, b) :: rest =>
    if i < j then (i, a) :: (j, b) :: rest
    else if i = j then (i, a) :: rest
    else (j, b) :: insertAccum i a rest

/-- The three guarded field updates applied to one accumulator entry for
one tool-call delta: `if (tc.id) …; if (tc.function?.name) …;
if (tc.function?.arguments) … += …`. -/
def applyTCDelta (cur : Accum) (tc : ToolCallDelta) : Accum :=
  let cur := match truthy tc.id with
    | some v => { cur with id := some v }
    | none => cur
  let cur := match truthy tc.name with
    | some v => { cur with name := some v }
    | none => cur
  match truthy tc.arguments with
    | some v => { cur with args := cur.args ++ v }
    | none => cur

/-- `const idx = tc.index ?? 0`. -/
def idxOf (tc : ToolCallDelta) : Nat :=
  tc.index.getD 0

/-- Process one element of a `delta.tool_calls` array: create the entry
if missing (`if (!toolCallsAccum[idx]) … = {args: ''}`), then apply the
guarded updates. -/
def processToolCallDelta (m : List (Nat × Accum)) (tc : ToolCallDelta) :
    List (Nat × Accum) :=
  insertAccum (idxOf tc) (applyTCDelta ((lookupAccum m (idxOf tc)).getD {}) tc) m

/-- Process one decoded delta payload: forward and accumulate a truthy
content fragment, then fold the tool-call deltas (a present-but-empty
`tool_calls` array is truthy in JS but the loop body never runs). -/
def processDelta (st : StreamState) (d : Delta) : StreamState :=
  let st :=
    match truthy d.content with
    | some c => { st with content := st.content ++ c, chunks := st.chunks ++ [c] }
    | none => st
  match d.tool_calls with
  | some tcs => { st with accum := tcs.foldl processToolCallDelta st.accum }
  | none => st

def runStream (events : List Delta) : StreamState :=
  events.foldl processDelta { content := "", accum := [], chunks := [] }

/-- `tc.name || 'unknown'` at stream end. -/
def finalizeName (a : Accum) : String :=
  match a.name with
  | some n => if n = "" then "unknown" else n
  | none => "unknown"

/-- The `stream.on('end')` handler: emit `tool_calls` iff any index
accumulated an entry, one entry per index in ascending key order;
`content || null`. -/
def finalizeStream (st : StreamState) : Message :=
  { role := .assistant
    content := if st.content = "" then none else some st.content
    tool_calls :=
      if st.accum.isEmpty then none
      else some (st.accum.map (fun p =>
        { id := p.2.id
          function := { name := finalizeName p.2, arguments := p.2.args } })) }

/-- The whole streaming parse: the resolved assistant message plus the
sequence of chunk-sink invocations. -/
def parseStreamResponse (events : List Delta) : Message × List String :=
  (finalizeStream (runStream events), (runStream events).chunks)

/-! Specification-side views of a delta stream, used to state what the
parser accumulates. -/

/-- All tool-call deltas of a stream, in arrival order. -/
def allTCDeltas (events : List Delta) : List ToolCallDelta :=
  events.foldr (fun d acc => d.tool_calls.getD [] ++ acc) []

/-- The tool-call deltas that target index `i`. -/
def deltasAt (events : List Delta) (i : Nat) : List ToolCallDelta :=
  (allTCDeltas events).filter (fun tc => idxOf tc == i)

/-- The accumulator entry index `i` ends up with: the guarded updates of
its own deltas, folded in arrival order over the fresh `{args: ''}`. -/
def specAccumAt (events : List Delta) (i : Nat) : Accum :=
  (deltasAt events i).foldl applyTCDelta {}

/-- Sorted insertion without duplication. -/
def insertIdx (i : Nat) : List Nat → List Nat
  | [] => [i]
  | j :: rest =>
    if i < j then i :: j :: rest
    else if i = j then j :: rest
    else j :: insertIdx i rest

/-- The distinct targeted indices, in ascending order. -/
def sortedIndices (events : List Delta) : List Nat :=
  ((allTCDeltas events).map idxOf).foldl (fun acc i => insertIdx i acc) []

/-- The truthy content fragments of a stream, in arrival order. -/
def contentFrags (events : List Delta) : List String :=
  events.filterMap (fun d => truthy d.content)

/-- String concatenation of a list of fragments, in order. -/
def concatFragList (l : List String) : String :=
  l.foldr (· ++ ·) ""

/-- `sortedIndices`, phrased over a flat list of tool-call deltas. -/
def sortedOf (tcs : List ToolCallDelta) : List Nat :=
  (tcs.map idxOf).foldl (fun acc i => insertIdx i acc) []

/-- `specAccumAt`, phrased over a flat list of tool-call deltas. -/
def specAt (tcs : List ToolCallDelta) (i : Nat) : Accum :=
  (tcs.filter (fun tc => idxOf tc == i)).foldl applyTCDelta {}

/-! ## `ToolExecutor.execute` (`tools.ts` lines 239–354)

`execute` is the dispatcher's public boundary.  The pieces that touch the
outside world are oracle fields of `ExecEnv`: `decode` is `JSON.parse`
(its `ok` value is the decoded argument object, carried as an opaque
token; its `error` value is the exception's text), `runNative` is the
body of one `switch` case (filesystem/shell/git effect), which either
produces the output string or throws, `freshSuffix` is
`Math.random().toString(36).substr(2, 9)`, and `pluginHandlers` is the
plugin map.  The audit collaborator (`audit.ts`): `auditLog` is a no-op
when no audit path is configured, and appends one line otherwise with
sink exceptions caught and ignored, so the model records the list of
entries handed to the sink and stays total. -/

/-- What one tool body does when run: return output text or throw. -/
inductive ExecOutcome where
  | ok (s : String)
  | thrown (msg : String)
deriving Repr, DecidableEq

/-- The closed set of native operations of the `switch` in `execute`. -/
inductive NativeOp where
  | writeFile
  | readFile
  | listFiles
  | runShell
  | gitStatus
  | gitDiff
  | gitAdd
  | gitCommit
  | gitStash
  | grepSearch
  | editFileOp
  | createDirectory
deriving Repr, DecidableEq

/-- The `switch (name)` case labels, aliases included
(`tools.ts` lines 273–331). -/
def resolveNative (name : String) : Option NativeOp :=
  match name with
  | "write_file" | "create_file" | "file_write" => some .writeFile
  | "read_file" | "file_read" => some .readFile
  | "list_files" | "ls" => some .listFiles
  | "run_command" | "shell" | "bash" => some .runShell
  | "git_status" => some .gitStatus
  | "git_diff" => some .gitDiff
  | "git_add" => some .gitAdd
  | "git_commit" => some .gitCommit
  | "git_stash" => some .gitStash
  | "grep_search" | "search" | "grep" => some .grepSearch
  | "edit_file" | "patch_file" => some .editFileOp
  | "create_directory" | "mkdir" => some .createDirectory
  | _ => none

/-- One record handed to the audit sink (`ts` and `cwd` are stamped on
inside `auditLog` from the clock and process state). -/
structure AuditEntry where
  tool : String
  args : String
  result : Option String := none
  error : Option String := none
deriving Repr, DecidableEq

/-- The dispatcher's environment: configuration plus effect oracles. -/
structure ExecEnv where
  dryRun : Bool
  auditConfigured : Bool
  freshSuffix : String
  decode : String → Except String String
  runNative : NativeOp → String → ExecOutcome
  pluginHandlers : List (String × (String → ExecOutcome))

/-- `auditLog(entry)`: appends one line if a path is configured, else a
no-op; sink failures are caught and ignored (`audit.ts` lines 14–26). -/
def auditEmit (env : ExecEnv) (e : AuditEntry) : List AuditEntry :=
  if env.auditConfigured then [e] else []

/-- `const callId = call.id || 'call_' + Math.random().toString(36).substr(2, 9)`
— an absent or empty (falsy) id is replaced by a fresh `call_`-prefixed
one. -/
def callIdOf (env : ExecEnv) (call : ToolCall) : String :=
  match call.id with
  | some i => if i = "" then "call_" ++ env.freshSuffix else i
  | none => "call_" ++ env.freshSuffix

/-- The `switch` body: a native case, else a plugin handler by exact
name, else the `Unknown tool` text (which is returned, not thrown). -/
def dispatchTool (env : ExecEnv) (name : String) (args : String) : ExecOutcome :=
  match resolveNative name with
  | some op => env.runNative op args
  | none =>
    match (env.pluginHandlers.find? (fun p => p.1 == name)).map Prod.snd with
    | some h => h args
    | none => .ok ("Unknown tool: " ++ name)

/-- `ToolExecutor.execute`: returns the ToolResult and the audit records
emitted, in order.  The model is a total function — every failure mode
(argument-decode failure, unknown tool, thrown tool body) is converted to
a normally returned result, as in the source's early return and
`try/catch`. -/
def execute (env : ExecEnv) (call : ToolCall) : ToolResult × List AuditEntry :=
  let name := call.function.name
  let callId := callIdOf env call
  match env.decode call.function.arguments with
  | .error e =>
    ({ tool_call_id := callId, name := name
       content := "Error parsing arguments: " ++ e }, [])
  | .ok args =>
    if env.dryRun then
      let dryMsg := "[DRY-RUN] Would execute: " ++ name ++ "(" ++ args ++ ")"
      ({ tool_call_id := callId, name := name, content := dryMsg },
        auditEmit env { tool := name, args := args, result := some dryMsg })
    else
      match dispatchTool env name args with
      | .ok out =>
        ({ tool_call_id := callId, name := name, content := out },
          auditEmit env { tool := name, args := args, result := some out })
      | .thrown m =>
        ({ tool_call_id := callId, name := name, content := "Error: " ++ m },
          auditEmit env { tool := name, args := args, error := some m } ++
            auditEmit env { tool := name, args := args
                            result := some ("Error: " ++ m) })

/-! ## `Agent.chat` (the orchestrator module, lines 79–132)

`llm` is the transport collaborator (`this.llm.chat(this.history, …)` —
a function of the history), `exec` is `this.tools.execute`.  The model
returns the turn's outcome — returned text, or no value when the step
bound is exhausted — together with the final history. -/

/-- The tool-result message the loop pushes
(`{role: 'tool', content, tool_call_id, name}`). -/
def toToolMessage (r : ToolResult) : Message :=
  { role := .tool, content := some r.content
    tool_call_id := some r.tool_call_id, name := some r.name }

/-- `private maxSteps = 10`. -/
def maxSteps : Nat := 10

/-- JS `response.content || ''`. -/
def jsOrEmpty : Option String → String
  | some s => s
  | none => ""

inductive ChatOutcome where
  /-- `return response.content || ''` — the turn produced text -/
  | text (s : String)
  /-- the while loop exhausted `maxSteps`: `chat` returns no value -/
  | stepLimit
deriving Repr, DecidableEq

/-- The turn loop with `remaining` steps left: call the transport, append
the response, and either dispatch its tool calls sequentially (appending
one tool message per call, in order) and continue, or return its
content. -/
def chatSteps (llm : List Message → Message) (exec : ToolCall → ToolResult) :
    List Message → Nat → ChatOutcome × List Message
  | hist, 0 => (.stepLimit, hist)
  | hist, r + 1 =>
    let response := llm hist
    let hist1 := hist ++ [response]
    match response.tool_calls with
    | some calls =>
      if calls.isEmpty then (.text (jsOrEmpty response.content), hist1)
      else
        chatSteps llm exec (hist1 ++ calls.map (fun c => toToolMessage (exec c))) r
    | none => (.text (jsOrEmpty response.content), hist1)

def userMessage (s : String) : Message :=
  { role := .user, content := some s }

/-- `Agent.chat(userInput)`: push the user message, then loop up to
`maxSteps`. -/
def agentChat (llm : List Message → Message) (exec : ToolCall → ToolResult)
    (hist : List Message) (userInput : String) : ChatOutcome × List Message :=
  chatSteps llm exec (hist ++ [userMessage userInput]) maxSteps

/-- One loop step's appends: the assistant response followed by one tool
message per tool call, in issuance order. -/
def stepBlock (llm : List Message → Message) (exec : ToolCall → ToolResult)
    (hist : List Message) : List Message :=
  hist ++ [llm hist] ++ ((llm hist).tool_calls.getD []).map (fun c => toToolMessage (exec c))

/-- `n` loop steps' appends, innermost first. -/
def iterBlocks (llm : List Message → Message) (exec : ToolCall → ToolResult) :
    List Message → Nat → List Message
  | hist, 0 => hist
  | hist, n + 1 => iterBlocks llm exec (stepBlock llm exec hist) n

/-! Concrete fixtures for witnesses and counterexamples. -/

/-- A representative tool call with a non-empty id. -/
def exCall : ToolCall :=
  { function := { name := "read_file", arguments := "\x7b\x7d" }, id := some "call_1" }

/-- A representative tool call whose id is absent. -/
def exCallNoId : ToolCall :=
  { function := { name := "read_file", arguments := "\x7b\x7d" }, id := none }

/-- A baseline environment: no dry-run, audit configured, decode
succeeds, every native body returns `"output"`. -/
def exEnvBase : ExecEnv :=
  { dryRun := false
    auditConfigured := true
    freshSuffix := "a1b2c3d4e"
    decode := fun s => .ok s
    runNative := fun _ _ => .ok "output"
    pluginHandlers := [] }

/-- Environment whose argument decoding fails. -/
def envDecodeFail : ExecEnv :=
  { exEnvBase with decode := fun _ => .error "SyntaxError: Unexpected token" }

/-- Environment whose tool body throws. -/
def envThrow : ExecEnv :=
  { exEnvBase with runNative := fun _ _ => .thrown "ENOENT: no such file or directory" }

/-- A transport oracle that requests a tool on every response. -/
def exLlmAllTools : List Message → Message :=
  fun _ => { role := .assistant, content := none, tool_calls := some [exCall] }

/-- A transport oracle that issues one id-less tool call on the first
step and plain text afterwards. -/
def exLlmNoId : List Message → Message :=
  fun hs =>
    if hs.length == 1 then
      { role := .assistant, content := none, tool_calls := some [exCallNoId] }
    else
      { role := .assistant, content := some "done" }

end OpenCode

/-! ## C1 -/

/-- C1: evidence of the divergence. The target substring `"abc"` occurs 3
times in the file content `"abc abc abc"`; the edit reports
`Replaced 3 occurrence(s)` but the written content still contains two
occurrences of the old text — `content.replace(oldText, newText)` with a
string pattern only replaces the first occurrence, contradicting both the
reported count and the documented replace-all contract. -/
theorem OpenCode.editFile_reports_three_but_replaces_first :
    OpenCode.editFile "sample.txt" "abc abc abc" "abc" "xyz" =
      { newContent := some "xyz abc abc"
        message := "Successfully edited sample.txt. Replaced 3 occurrence(s)." } := by
  decide

/-! ## C2 -/

/-- C2 counterexample: with auto-approve disabled, the prompt answer `"Y"`
is not the string `"y"`, yet the command runs — the code compares
`answer.toLowerCase()` against `"y"`, so the claim "any other answer
refuses without invoking the shell" fails at the answer `"Y"`. -/
theorem OpenCode.runCommand_uppercase_Y_runs :
    OpenCode.runCommand false [] "Y" (fun _ => "ok") "echo hi" =
      OpenCode.ShellOutcome.ran "ok" ∧ "Y" ≠ "y" :=
  ⟨rfl, by decide⟩

/-- C2 (amended): with dry-run off — if auto-approve is enabled and the
normalized allowlist is empty the command runs unconditionally; if
auto-approve is enabled and the allowlist is non-empty, membership of the
lowercased first whitespace-delimited token decides: member runs,
non-member is refused with explanatory text and the shell is never
invoked; if auto-approve is disabled the yes/no prompt decides, an answer
equal to `"y"` after lowercasing runs and any other answer refuses
without invoking the shell. -/
theorem OpenCode.runCommand_approval_policy (aa : Bool) (al : List String)
    (ans : String) (shell : String → String) (cmd : String) :
    (aa = true → (OpenCode.normalizedAllowlist al).isEmpty = true →
      OpenCode.runCommand aa al ans shell cmd = .ran (shell cmd)) ∧
    (aa = true → (OpenCode.normalizedAllowlist al).isEmpty = false →
      ((OpenCode.normalizedAllowlist al).contains (OpenCode.cmdBaseOf cmd) = true →
        OpenCode.runCommand aa al ans shell cmd = .ran (shell cmd)) ∧
      ((OpenCode.normalizedAllowlist al).contains (OpenCode.cmdBaseOf cmd) = false →
        OpenCode.runCommand aa al ans shell cmd =
          .allowlistDenied ("Command \"" ++ OpenCode.cmdBaseOf cmd ++
            "\" not in allowlist. Use --allow \"cmd1,cmd2\" to add."))) ∧
    (aa = false →
      (OpenCode.jsToLower ans = "y" →
        OpenCode.runCommand aa al ans shell cmd = .ran (shell cmd)) ∧
      (OpenCode.jsToLower ans ≠ "y" →
        OpenCode.runCommand aa al ans shell cmd =
          .userDenied "User denied command execution.")) := by
  refine ⟨?_, ?_, ?_⟩
  · intro h1 h2
    simp [OpenCode.runCommand, h1, h2]
  · intro h1 h2
    constructor
    · intro h3
      have hmem := of_decide_eq_true ((List.elem_eq_mem _ _).symm.trans h3)
      simp [OpenCode.runCommand, h1, h2, hmem]
    · intro h3
      have hnot := of_decide_eq_false ((List.elem_eq_mem _ _).symm.trans h3)
      simp [OpenCode.runCommand, h1, h2, hnot]
  · intro h1
    constructor
    · intro h2
      simp [OpenCode.runCommand, h1, h2]
    · intro h2
      simp [OpenCode.runCommand, h1, h2]

/-- C2 witness: the spec scenario — allowlist `{"git"}` with auto-approve
enabled lets `"git status"` run and refuses `"rm -rf /"` without
execution; with auto-approve disabled an `"n"` answer denies. -/
theorem OpenCode.runCommand_approval_policy_witness :
    OpenCode.runCommand true ["git"] "" (fun _ => "On branch main") "git status" =
      OpenCode.ShellOutcome.ran "On branch main" ∧
    OpenCode.runCommand true ["git"] "" (fun _ => "gone") "rm -rf /" =
      OpenCode.ShellOutcome.allowlistDenied
        "Command \"rm\" not in allowlist. Use --allow \"cmd1,cmd2\" to add." ∧
    OpenCode.runCommand false [] "n" (fun _ => "x") "echo hi" =
      OpenCode.ShellOutcome.userDenied "User denied command execution." :=
  ⟨((OpenCode.runCommand_approval_policy true ["git"] "" _ "git status").2.1
      rfl (by decide)).1 (by decide),
   ((OpenCode.runCommand_approval_policy true ["git"] "" _ "rm -rf /").2.1
      rfl (by decide)).2 (by decide),
   ((OpenCode.runCommand_approval_policy false [] "n" _ "echo hi").2.2
      rfl).2 (by decide)⟩

/-! ## C3 -/

/-- Characterization of the retry loop from an arbitrary attempt number:
the loop sleeps one classified backoff per retried attempt, retries only
classification-retryable failures, performs at most `remaining` retries,
and its outcome is exactly the outcome of the final attempt reached. -/
theorem OpenCode.chatGo_characterization
    (oracle : Nat → Except OpenCode.JsError OpenCode.Message) (r a : Nat) :
    (OpenCode.chatGo oracle a r).1 =
      oracle (a + (OpenCode.chatGo oracle a r).2.length) ∧
    (OpenCode.chatGo oracle a r).2 =
      (List.range (OpenCode.chatGo oracle a r).2.length).map
        (fun i => OpenCode.backoffDelay (a + i)) ∧
    (OpenCode.chatGo oracle a r).2.length ≤ r ∧
    (∀ i, i < (OpenCode.chatGo oracle a r).2.length →
      ∃ e, oracle (a + i) = .error e ∧ OpenCode.isRetryable e = true) ∧
    ((OpenCode.chatGo oracle a r).2.length < r →
      ∀ e, oracle (a + (OpenCode.chatGo oracle a r).2.length) = .error e →
        OpenCode.isRetryable e = false) := by
  induction r generalizing a with
  | zero =>
    cases ho : oracle a with
    | ok m => simp [OpenCode.chatGo, ho]
    | error e => simp [OpenCode.chatGo, ho]
  | succ r ih =>
    cases ho : oracle a with
    | ok m => simp [OpenCode.chatGo, ho]
    | error e =>
      cases hr : OpenCode.isRetryable e with
      | false =>
        simp only [OpenCode.chatGo, ho, hr, Bool.false_eq_true, if_false]
        refine ⟨by simp [ho], by simp, by simp, by simp, ?_⟩
        intro _ e' he'
        simp only [List.length_nil, Nat.add_zero] at he'
        rw [ho] at he'
        injection he' with h
        rw [← h]
        exact hr
      | true =>
        have IH := ih (a + 1)
        simp only [OpenCode.chatGo, ho, hr, if_true]
        obtain ⟨ih1, ih2, ih3, ih4, ih5⟩ := IH
        set L := (OpenCode.chatGo oracle (a + 1) r).2.length with hL
        refine ⟨?_, ?_, ?_, ?_, ?_⟩
        · simp only [List.length_cons]
          rw [show a + (L + 1) = a + 1 + L by omega]
          exact ih1
        · simp only [List.length_cons]
          rw [List.range_succ_eq_map, List.map_cons, List.map_map]
          have hfun : ((fun i => OpenCode.backoffDelay (a + i)) ∘ (· + 1)) =
              (fun i => OpenCode.backoffDelay (a + 1 + i)) := by
            funext i
            simp only [Function.comp_apply]
            congr 1
            omega
          rw [hfun, ← ih2]
          simp
        · simp only [List.length_cons]
          omega
        · simp only [List.length_cons]
          intro i hi
          cases i with
          | zero => exact ⟨e, by simpa using ho, hr⟩
          | succ j =>
            obtain ⟨e', he', hre'⟩ := ih4 j (by omega)
            exact ⟨e', by rw [show a + (j + 1) = a + 1 + j by omega]; exact he', hre'⟩
        · simp only [List.length_cons]
          intro hlt e' he'
          refine ih5 (by omega) e' ?_
          rw [show a + 1 + L = a + (L + 1) by omega]
          exact he'

/-- C3: for every request, the transport retry loop performs some number
`k ≤ maxRetries` of retries beyond the first attempt (default
`maxRetries` is 3); the delays slept are exactly
`min(1000 * 2^attempt, 10000)` ms for the failed attempts
`0, …, k - 1`, each of which was a classified-retryable failure
(abort, connection reset/timeout, fetch failure, or `API Error 5xx`);
the loop's outcome is exactly the outcome of attempt `k` — so a
non-retryable failure (e.g. a 4xx status) propagates at its first
occurrence with no retry, and if all `maxRetries + 1` attempts fail
retryably the last failure is raised as the terminal outcome. -/
theorem OpenCode.chat_retry_policy
    (oracle : Nat → Except OpenCode.JsError OpenCode.Message) (maxRetries : Nat) :
    ∃ k ≤ maxRetries,
      (OpenCode.chatModel oracle maxRetries).2 =
        (List.range k).map OpenCode.backoffDelay ∧
      (OpenCode.chatModel oracle maxRetries).1 = oracle k ∧
      (∀ i, i < k → ∃ e, oracle i = .error e ∧ OpenCode.isRetryable e = true) ∧
      (k < maxRetries → ∀ e, oracle k = .error e →
        OpenCode.isRetryable e = false) := by
  obtain ⟨h1, h2, h3, h4, h5⟩ := OpenCode.chatGo_characterization oracle maxRetries 0
  refine ⟨(OpenCode.chatModel oracle maxRetries).2.length, h3, ?_, ?_, ?_, ?_⟩
  · simpa [OpenCode.chatModel] using h2
  · simpa [OpenCode.chatModel] using h1
  · intro i hi
    simpa using h4 i hi
  · intro hlt e he
    exact h5 hlt e (by simpa using he)

/-- C3 witness: the spec scenario — a 500 response on attempt 0 followed
by a success on attempt 1, with retries = 3 configured: the call succeeds
after exactly one backoff of 1000 ms, and the final outcome is the
outcome of attempt 1. -/
theorem OpenCode.chat_retry_policy_witness :
    OpenCode.chatModel OpenCode.retryExOracle OpenCode.defaultMaxRetries =
      (.ok { role := .assistant, content := some "hi" }, [1000]) ∧
    (OpenCode.chatModel OpenCode.retryExOracle OpenCode.defaultMaxRetries).1 =
      OpenCode.retryExOracle
        (OpenCode.chatModel OpenCode.retryExOracle OpenCode.defaultMaxRetries).2.length := by
  refine ⟨rfl, ?_⟩
  obtain ⟨k, hk, hdelays, hout, _, _⟩ :=
    OpenCode.chat_retry_policy OpenCode.retryExOracle OpenCode.defaultMaxRetries
  have hlen : (OpenCode.chatModel OpenCode.retryExOracle
      OpenCode.defaultMaxRetries).2.length = k := by
    rw [hdelays]
    simp
  rw [hlen]
  exact hout

/-! ## Stream-parser lemmas -/

theorem OpenCode.mem_insertIdx (i : Nat) (l : List Nat) (j : Nat) :
    j ∈ OpenCode.insertIdx i l ↔ j = i ∨ j ∈ l := by
  induction l with
  | nil => simp [OpenCode.insertIdx]
  | cons k rest ih =>
    by_cases h1 : i < k
    · simp [OpenCode.insertIdx, h1]
    · by_cases h2 : i = k
      · subst h2
        simp only [OpenCode.insertIdx, h1, if_false, if_true]
        simp
      · simp only [OpenCode.insertIdx, h1, h2, if_false]
        simp [ih]
        tauto

theorem OpenCode.sorted_insertIdx (i : Nat) (l : List Nat)
    (h : l.Pairwise (· < ·)) : (OpenCode.insertIdx i l).Pairwise (· < ·) := by
  induction l with
  | nil => simp [OpenCode.insertIdx]
  | cons k rest ih =>
    rw [List.pairwise_cons] at h
    obtain ⟨hk, hrest⟩ := h
    by_cases h1 : i < k
    · simp only [OpenCode.insertIdx, h1, if_true]
      rw [List.pairwise_cons]
      refine ⟨?_, ?_⟩
      · intro b hb
        rcases List.mem_cons.mp hb with rfl | hb'
        · exact h1
        · exact lt_trans h1 (hk b hb')
      · rw [List.pairwise_cons]
        exact ⟨hk, hrest⟩
    · by_cases h2 : i = k
      · subst h2
        simp only [OpenCode.insertIdx, h1, if_false, if_true]
        rw [List.pairwise_cons]
        exact ⟨hk, hrest⟩
      · simp only [OpenCode.insertIdx, h1, h2, if_false]
        rw [List.pairwise_cons]
        refine ⟨?_, ih hrest⟩
        intro b hb
        rcases (OpenCode.mem_insertIdx i rest b).mp hb with rfl | hb'
        · omega
        · exact hk b hb'

theorem OpenCode.lookupAccum_map (l : List Nat) (f : Nat → OpenCode.Accum) (i : Nat) :
    OpenCode.lookupAccum (l.map fun j => (j, f j)) i =
      if i ∈ l then some (f i) else none := by
  induction l with
  | nil => simp [OpenCode.lookupAccum]
  | cons k rest ih =>
    by_cases h : k = i
    · subst h
      simp [OpenCode.lookupAccum, List.find?]
    · have hbeq : (k == i) = false := by
        simp [h]
      have hnk : i ≠ k := fun hh => h hh.symm
      simp only [List.map_cons, OpenCode.lookupAccum, List.find?] at ih ⊢
      simp only [hbeq]
      rw [ih]
      by_cases hm : i ∈ rest
      · simp [hm]
      · simp [hm, List.mem_cons, hnk]

theorem OpenCode.insertAccum_map (i : Nat) (a : OpenCode.Accum) (l : List Nat)
    (hs : l.Pairwise (· < ·)) (f : Nat → OpenCode.Accum) :
    OpenCode.insertAccum i a (l.map fun j => (j, f j)) =
      (OpenCode.insertIdx i l).map (fun j => (j, if j = i then a else f j)) := by
  induction l with
  | nil => simp [OpenCode.insertAccum, OpenCode.insertIdx]
  | cons k rest ih =>
    rw [List.pairwise_cons] at hs
    obtain ⟨hk, hrest⟩ := hs
    by_cases h1 : i < k
    · simp only [List.map_cons, OpenCode.insertAccum, OpenCode.insertIdx, h1, if_true]
      have hki : ¬ k = i := by omega
      simp only [List.map_cons, hki, if_false]
      congr 1
      congr 1
      apply List.map_congr_left
      intro b hb
      have : ¬ b = i := by
        have := hk b hb
        omega
      simp [this]
    · by_cases h2 : i = k
      · subst h2
        rw [List.map_cons]
        have e1 : OpenCode.insertAccum i a ((i, f i) :: rest.map fun j => (j, f j)) =
            (i, a) :: rest.map fun j => (j, f j) := by
          simp [OpenCode.insertAccum]
        have e2 : OpenCode.insertIdx i (i :: rest) = i :: rest := by
          simp [OpenCode.insertIdx]
        rw [e1, e2, List.map_cons, if_pos rfl]
        congr 1
        apply List.map_congr_left
        intro b hb
        have hbne : ¬ b = i := by
          have := hk b hb
          omega
        simp [hbne]
      · simp only [List.map_cons, OpenCode.insertAccum, OpenCode.insertIdx, h1, h2,
          if_false]
        have hki : ¬ k = i := fun hh => h2 hh.symm
        simp only [hki, if_false]
        rw [ih hrest]

theorem OpenCode.pairwise_foldl_insertIdx (idxs : List Nat) :
    ∀ acc : List Nat, acc.Pairwise (· < ·) →
      (idxs.foldl (fun a i => OpenCode.insertIdx i a) acc).Pairwise (· < ·) := by
  induction idxs with
  | nil => intro acc h; simpa using h
  | cons i rest ih =>
    intro acc h
    exact ih _ (OpenCode.sorted_insertIdx i acc h)

theorem OpenCode.mem_foldl_insertIdx (idxs : List Nat) :
    ∀ (acc : List Nat) (j : Nat),
      j ∈ idxs.foldl (fun a i => OpenCode.insertIdx i a) acc ↔ j ∈ idxs ∨ j ∈ acc := by
  induction idxs with
  | nil => intro acc j; simp
  | cons i rest ih =>
    intro acc j
    rw [List.foldl_cons, ih, OpenCode.mem_insertIdx]
    simp [List.mem_cons]
    tauto

theorem OpenCode.sortedOf_pairwise (tcs : List OpenCode.ToolCallDelta) :
    (OpenCode.sortedOf tcs).Pairwise (· < ·) :=
  OpenCode.pairwise_foldl_insertIdx _ [] (by simp)

theorem OpenCode.mem_sortedOf (tcs : List OpenCode.ToolCallDelta) (j : Nat) :
    j ∈ OpenCode.sortedOf tcs ↔ j ∈ tcs.map OpenCode.idxOf := by
  rw [OpenCode.sortedOf, OpenCode.mem_foldl_insertIdx]
  simp

theorem OpenCode.sortedOf_eq_nil_iff (tcs : List OpenCode.ToolCallDelta) :
    OpenCode.sortedOf tcs = [] ↔ tcs = [] := by
  cases tcs with
  | nil => simp [OpenCode.sortedOf]
  | cons tc rest =>
    constructor
    · intro h
      have hm : OpenCode.idxOf tc ∈ OpenCode.sortedOf (tc :: rest) :=
        (OpenCode.mem_sortedOf _ _).mpr (by simp)
      rw [h] at hm
      simp at hm
    · intro h
      simp at h

theorem OpenCode.sortedOf_append (tcs : List OpenCode.ToolCallDelta)
    (tc : OpenCode.ToolCallDelta) :
    OpenCode.sortedOf (tcs ++ [tc]) =
      OpenCode.insertIdx (OpenCode.idxOf tc) (OpenCode.sortedOf tcs) := by
  simp [OpenCode.sortedOf, List.map_append, List.foldl_append]

theorem OpenCode.specAt_append (tcs : List OpenCode.ToolCallDelta)
    (tc : OpenCode.ToolCallDelta) (i : Nat) :
    OpenCode.specAt (tcs ++ [tc]) i =
      if OpenCode.idxOf tc = i then
        OpenCode.applyTCDelta (OpenCode.specAt tcs i) tc
      else OpenCode.specAt tcs i := by
  by_cases h : OpenCode.idxOf tc = i
  · simp [OpenCode.specAt, List.filter_append, h, List.foldl_append]
  · simp [OpenCode.specAt, List.filter_append, h, List.foldl_append]

theorem OpenCode.specAt_not_mem (tcs : List OpenCode.ToolCallDelta) (i : Nat)
    (h : i ∉ tcs.map OpenCode.idxOf) : OpenCode.specAt tcs i = {} := by
  have hfil : tcs.filter (fun tc => OpenCode.idxOf tc == i) = [] := by
    rw [List.filter_eq_nil_iff]
    intro tc htc
    simp only [beq_eq_false_iff_ne, ne_eq, beq_iff_eq]
    intro hh
    exact h (hh ▸ List.mem_map_of_mem OpenCode.idxOf htc)
  rw [OpenCode.specAt, hfil]
  rfl

theorem OpenCode.foldl_processToolCallDelta_eq (tcs : List OpenCode.ToolCallDelta) :
    tcs.foldl OpenCode.processToolCallDelta [] =
      (OpenCode.sortedOf tcs).map (fun i => (i, OpenCode.specAt tcs i)) := by
  induction tcs using List.reverseRecOn with
  | nil => rfl
  | append_singleton tcs tc ih =>
    rw [List.foldl_append, List.foldl_cons, List.foldl_nil, ih,
      OpenCode.processToolCallDelta, OpenCode.lookupAccum_map]
    by_cases hmem : OpenCode.idxOf tc ∈ OpenCode.sortedOf tcs
    · rw [if_pos hmem]
      simp only [Option.getD_some]
      rw [OpenCode.insertAccum_map _ _ _ (OpenCode.sortedOf_pairwise tcs),
        OpenCode.sortedOf_append]
      apply List.map_congr_left
      intro j hj
      rw [OpenCode.specAt_append]
      by_cases hji : j = OpenCode.idxOf tc
      · subst hji
        simp
      · have hij : ¬ OpenCode.idxOf tc = j := fun hh => hji hh.symm
        simp [hji, hij]
    · rw [if_neg hmem]
      simp only [Option.getD_none]
      have hspec : OpenCode.specAt tcs (OpenCode.idxOf tc) = {} :=
        OpenCode.specAt_not_mem _ _ (fun hh => hmem ((OpenCode.mem_sortedOf _ _).mpr hh))
      rw [OpenCode.insertAccum_map _ _ _ (OpenCode.sortedOf_pairwise tcs),
        OpenCode.sortedOf_append]
      apply List.map_congr_left
      intro j hj
      rw [OpenCode.specAt_append]
      by_cases hji : j = OpenCode.idxOf tc
      · subst hji
        simp [hspec]
      · have hij : ¬ OpenCode.idxOf tc = j := fun hh => hji hh.symm
        simp [hji, hij]

theorem OpenCode.runStream_accum_aux (events : List OpenCode.Delta) :
    ∀ st : OpenCode.StreamState,
      (events.foldl OpenCode.processDelta st).accum =
        (OpenCode.allTCDeltas events).foldl OpenCode.processToolCallDelta st.accum := by
  induction events with
  | nil => intro st; rfl
  | cons d es ih =>
    intro st
    rw [List.foldl_cons, ih]
    have hacc : (OpenCode.processDelta st d).accum =
        (d.tool_calls.getD []).foldl OpenCode.processToolCallDelta st.accum := by
      cases h : OpenCode.truthy d.content <;> cases ht : d.tool_calls <;>
        simp [OpenCode.processDelta, h, ht]
    rw [hacc]
    have hflat : OpenCode.allTCDeltas (d :: es) =
        d.tool_calls.getD [] ++ OpenCode.allTCDeltas es := rfl
    rw [hflat, List.foldl_append]

theorem OpenCode.runStream_accum (events : List OpenCode.Delta) :
    (OpenCode.runStream events).accum =
      (OpenCode.sortedIndices events).map
        (fun i => (i, OpenCode.specAccumAt events i)) := by
  rw [OpenCode.runStream, OpenCode.runStream_accum_aux]
  exact OpenCode.foldl_processToolCallDelta_eq (OpenCode.allTCDeltas events)

theorem OpenCode.foldl_applyTCDelta_args (l : List OpenCode.ToolCallDelta) :
    ∀ cur : OpenCode.Accum,
      (l.foldl OpenCode.applyTCDelta cur).args =
        cur.args ++ OpenCode.concatFragList
          (l.filterMap (fun tc => OpenCode.truthy tc.arguments)) := by
  induction l with
  | nil => intro cur; simp [OpenCode.concatFragList]
  | cons tc rest ih =>
    intro cur
    rw [List.foldl_cons, ih]
    have hstep : (OpenCode.applyTCDelta cur tc).args =
        cur.args ++ (OpenCode.truthy tc.arguments).getD "" := by
      cases h1 : OpenCode.truthy tc.id <;> cases h2 : OpenCode.truthy tc.name <;>
        cases h3 : OpenCode.truthy tc.arguments <;>
          simp [OpenCode.applyTCDelta, h1, h2, h3]
    rw [hstep]
    cases h3 : OpenCode.truthy tc.arguments <;>
      simp [List.filterMap_cons, h3, OpenCode.concatFragList, String.append_assoc]

theorem OpenCode.foldl_applyTCDelta_name (l : List OpenCode.ToolCallDelta) :
    ∀ cur : OpenCode.Accum,
      l.filterMap (fun tc => OpenCode.truthy tc.name) = [] →
      (l.foldl OpenCode.applyTCDelta cur).name = cur.name := by
  induction l with
  | nil => intro cur _; rfl
  | cons tc rest ih =>
    intro cur hnil
    rw [List.filterMap_cons] at hnil
    cases h2 : OpenCode.truthy tc.name with
    | some v => rw [h2] at hnil; simp at hnil
    | none =>
      rw [h2] at hnil
      have hstep : (OpenCode.applyTCDelta cur tc).name = cur.name := by
        cases h1 : OpenCode.truthy tc.id <;>
          cases h3 : OpenCode.truthy tc.arguments <;>
            simp [OpenCode.applyTCDelta, h1, h2, h3]
      rw [List.foldl_cons, ih _ hnil, hstep]

theorem OpenCode.processDelta_content_chunks (st : OpenCode.StreamState)
    (d : OpenCode.Delta) :
    (OpenCode.processDelta st d).chunks =
      st.chunks ++ (OpenCode.truthy d.content).toList ∧
    (OpenCode.processDelta st d).content =
      st.content ++ (OpenCode.truthy d.content).getD "" := by
  cases h : OpenCode.truthy d.content <;> cases ht : d.tool_calls <;>
    simp [OpenCode.processDelta, h, ht]

theorem OpenCode.runStream_chunks_content (events : List OpenCode.Delta) :
    ∀ st : OpenCode.StreamState,
      (events.foldl OpenCode.processDelta st).chunks =
        st.chunks ++ OpenCode.contentFrags events ∧
      (events.foldl OpenCode.processDelta st).content =
        st.content ++ OpenCode.concatFragList (OpenCode.contentFrags events) := by
  induction events with
  | nil => intro st; simp [OpenCode.contentFrags, OpenCode.concatFragList]
  | cons d es ih =>
    intro st
    obtain ⟨h1, h2⟩ := ih (OpenCode.processDelta st d)
    obtain ⟨p1, p2⟩ := OpenCode.processDelta_content_chunks st d
    constructor
    · rw [List.foldl_cons, h1, p1]
      cases h : OpenCode.truthy d.content <;>
        simp [OpenCode.contentFrags, h, List.filterMap_cons]
    · rw [List.foldl_cons, h2, p2]
      cases h : OpenCode.truthy d.content <;>
        simp [OpenCode.contentFrags, OpenCode.concatFragList, h,
          List.filterMap_cons, String.append_assoc]

/-! ## C4 -/

/-- C4: streamed tool-call deltas are accumulated per positional index
(`tc.index ?? 0`), argument fragments concatenated in arrival order; at
stream end, if any index accumulated an entry the assistant message
carries one `tool_calls` entry per index in strictly ascending index
order, with the function name defaulting to `"unknown"` when no name
delta ever supplied one; if no index accumulated an entry, `tool_calls`
is omitted; and `content` is `null` exactly when no (non-empty) content
was accumulated. -/
theorem OpenCode.stream_tool_call_assembly (events : List OpenCode.Delta) :
    ((OpenCode.parseStreamResponse events).1.tool_calls = none ↔
      OpenCode.allTCDeltas events = []) ∧
    (OpenCode.allTCDeltas events ≠ [] →
      (OpenCode.parseStreamResponse events).1.tool_calls =
        some ((OpenCode.sortedIndices events).map (fun i =>
          { id := (OpenCode.specAccumAt events i).id
            function :=
              { name := OpenCode.finalizeName (OpenCode.specAccumAt events i)
                arguments := (OpenCode.specAccumAt events i).args } }))) ∧
    (OpenCode.sortedIndices events).Pairwise (· < ·) ∧
    (∀ i : Nat, (OpenCode.specAccumAt events i).args =
      OpenCode.concatFragList
        ((OpenCode.deltasAt events i).filterMap
          (fun tc => OpenCode.truthy tc.arguments))) ∧
    (∀ i : Nat,
      (OpenCode.deltasAt events i).filterMap (fun tc => OpenCode.truthy tc.name) = [] →
      OpenCode.finalizeName (OpenCode.specAccumAt events i) = "unknown") ∧
    ((OpenCode.parseStreamResponse events).1.content = none ↔
      OpenCode.concatFragList (OpenCode.contentFrags events) = "") := by
  have hacc := OpenCode.runStream_accum events
  have hsi : OpenCode.sortedIndices events =
      OpenCode.sortedOf (OpenCode.allTCDeltas events) := rfl
  have hcontent : (OpenCode.runStream events).content =
      OpenCode.concatFragList (OpenCode.contentFrags events) := by
    have := (OpenCode.runStream_chunks_content events
      { content := "", accum := [], chunks := [] }).2
    rw [OpenCode.runStream, this, String.empty_append]
  have hempty : ((OpenCode.runStream events).accum.isEmpty = true) ↔
      OpenCode.allTCDeltas events = [] := by
    rw [hacc, List.isEmpty_iff, List.map_eq_nil_iff, hsi,
      OpenCode.sortedOf_eq_nil_iff]
  refine ⟨?_, ?_, ?_, ?_, ?_, ?_⟩
  · simp only [OpenCode.parseStreamResponse, OpenCode.finalizeStream]
    constructor
    · intro h
      by_cases hb : (OpenCode.runStream events).accum.isEmpty = true
      · exact hempty.mp hb
      · rw [if_neg hb] at h
        simp at h
    · intro h
      rw [if_pos (hempty.mpr h)]
  · intro hne
    simp only [OpenCode.parseStreamResponse, OpenCode.finalizeStream]
    have hb : ¬ (OpenCode.runStream events).accum.isEmpty = true := fun hb =>
      hne (hempty.mp hb)
    rw [if_neg hb, hacc, List.map_map]
    rfl
  · rw [hsi]
    exact OpenCode.sortedOf_pairwise _
  · intro i
    have : OpenCode.specAccumAt events i =
        (OpenCode.deltasAt events i).foldl OpenCode.applyTCDelta {} := rfl
    rw [this, OpenCode.foldl_applyTCDelta_args]
    exact String.empty_append _
  · intro i h
    have hn : (OpenCode.specAccumAt events i).name = ({} : OpenCode.Accum).name :=
      OpenCode.foldl_applyTCDelta_name _ _ h
    simp only [OpenCode.finalizeName, hn]
  · simp only [OpenCode.parseStreamResponse, OpenCode.finalizeStream]
    rw [hcontent]
    by_cases h : OpenCode.concatFragList (OpenCode.contentFrags events) = ""
    · rw [if_pos h]
      simp [h]
    · rw [if_neg h]
      simp [h]

/-- C4 witness: a stream where index 1 receives two argument fragments
across separate events and no name, and index 0 receives only a name:
the emitted array is in ascending index order, index 0 keeps its name
with empty arguments, index 1 defaults to `"unknown"` with the fragments
concatenated. -/
theorem OpenCode.stream_tool_call_assembly_witness :
    (OpenCode.parseStreamResponse
      [{ content := none
         tool_calls := some [{ index := some 1, arguments := some "ab" }] },
       { content := none
         tool_calls := some [{ index := some 0, name := some "fn" },
                             { index := some 1, arguments := some "cd" }] }]).1.tool_calls =
      some [{ id := none, function := { name := "fn", arguments := "" } },
            { id := none, function := { name := "unknown", arguments := "abcd" } }] :=
  ((OpenCode.stream_tool_call_assembly
    [{ content := none
       tool_calls := some [{ index := some 1, arguments := some "ab" }] },
     { content := none
       tool_calls := some [{ index := some 0, name := some "fn" },
                           { index := some 1, arguments := some "cd" }] }]).2.1
    (by decide)).trans (by decide)

/-! ## C9 -/

/-- C9 counterexample: a delta whose `content` field is present but
empty is a content delta, yet the chunk sink is never invoked for it —
`if (delta?.content)` is a JS truthiness test, so the empty string is
skipped. -/
theorem OpenCode.stream_empty_content_delta_skipped :
    (OpenCode.parseStreamResponse [{ content := some "" }]).2 = [] ∧
    ({ content := some "" } : OpenCode.Delta).content ≠ none :=
  ⟨rfl, by decide⟩

/-- C9 (amended): every non-empty content delta is forwarded to the
chunk sink immediately, in arrival order (the sink-invocation sequence
equals the sequence of non-empty content fragments), and the returned
assistant message's content is their concatenation (`null` when it is
empty).  In particular deltas `"Hello"` then `" world"` invoke the sink
exactly twice with those fragments and yield content `"Hello world"`. -/
theorem OpenCode.stream_content_forwarding (events : List OpenCode.Delta) :
    (OpenCode.parseStreamResponse events).2 = OpenCode.contentFrags events ∧
    (OpenCode.parseStreamResponse events).1.content =
      (if OpenCode.concatFragList (OpenCode.contentFrags events) = "" then none
       else some (OpenCode.concatFragList (OpenCode.contentFrags events))) := by
  obtain ⟨h1, h2⟩ := OpenCode.runStream_chunks_content events
    { content := "", accum := [], chunks := [] }
  constructor
  · simp only [OpenCode.parseStreamResponse, OpenCode.runStream]
    rw [h1]
    rfl
  · simp only [OpenCode.parseStreamResponse, OpenCode.finalizeStream,
      OpenCode.runStream]
    rw [h2, String.empty_append]

/-! ## Dispatcher lemmas -/

/-- Every path of `execute` returns the same `callId` computed up
front. -/
theorem OpenCode.execute_tool_call_id (env : OpenCode.ExecEnv)
    (call : OpenCode.ToolCall) :
    (OpenCode.execute env call).1.tool_call_id = OpenCode.callIdOf env call := by
  cases hd : env.decode call.function.arguments with
  | error e => simp [OpenCode.execute, hd]
  | ok args =>
    cases hdry : env.dryRun with
    | true => simp [OpenCode.execute, hd, hdry]
    | false =>
      cases hdisp : OpenCode.dispatchTool env call.function.name args with
      | ok out => simp [OpenCode.execute, hd, hdry, hdisp]
      | thrown m => simp [OpenCode.execute, hd, hdry, hdisp]

/-! ## C6 -/

/-- C6: `execute` is a total function — the model of the dispatcher's
public boundary returns normally on every input (the source's early
return on decode failure, the `Unknown tool` fallthrough, and the
`try/catch` around the tool body) — and each failure mode yields a
`ToolResult` whose content is descriptive error text: an
argument-decode failure reports the parse exception, an unknown tool
name (no native case and no plugin handler) reports `Unknown tool`, and
an exception thrown by the executing tool body reports `Error: …`. -/
theorem OpenCode.execute_never_throws (env : OpenCode.ExecEnv)
    (call : OpenCode.ToolCall) :
    (∀ e, env.decode call.function.arguments = .error e →
      (OpenCode.execute env call).1.content = "Error parsing arguments: " ++ e) ∧
    (∀ args, env.decode call.function.arguments = .ok args → env.dryRun = false →
      OpenCode.resolveNative call.function.name = none →
      env.pluginHandlers.find? (fun p => p.1 == call.function.name) = none →
      (OpenCode.execute env call).1.content =
        "Unknown tool: " ++ call.function.name) ∧
    (∀ args m, env.decode call.function.arguments = .ok args → env.dryRun = false →
      OpenCode.dispatchTool env call.function.name args = .thrown m →
      (OpenCode.execute env call).1.content = "Error: " ++ m) := by
  refine ⟨?_, ?_, ?_⟩
  · intro e hd
    simp [OpenCode.execute, hd]
  · intro args hd hdry hres hplug
    have hdisp : OpenCode.dispatchTool env call.function.name args =
        .ok ("Unknown tool: " ++ call.function.name) := by
      simp [OpenCode.dispatchTool, hres, hplug]
    simp [OpenCode.execute, hd, hdry, hdisp]
  · intro args m hd hdry hdisp
    simp [OpenCode.execute, hd, hdry, hdisp]

/-- C6 witness: a call whose arguments fail to decode yields the
descriptive parse-error result. -/
theorem OpenCode.execute_never_throws_witness :
    (OpenCode.execute OpenCode.envDecodeFail OpenCode.exCall).1.content =
      "Error parsing arguments: SyntaxError: Unexpected token" :=
  (OpenCode.execute_never_throws OpenCode.envDecodeFail OpenCode.exCall).1
    "SyntaxError: Unexpected token" rfl

/-! ## C7 -/

/-- C7 counterexample: when the tool body throws, `execute` emits two
audit records — one from the `catch` block carrying the error, then the
unconditional one carrying the error text as result — not exactly one. -/
theorem OpenCode.execute_double_audit_on_throw :
    (OpenCode.execute OpenCode.envThrow OpenCode.exCall).2 =
      [{ tool := "read_file", args := "\x7b\x7d"
         error := some "ENOENT: no such file or directory" },
       { tool := "read_file", args := "\x7b\x7d"
         result := some "Error: ENOENT: no such file or directory" }] ∧
    (OpenCode.execute OpenCode.envThrow OpenCode.exCall).2.length ≠ 1 :=
  ⟨rfl, by decide⟩

/-- C7 (amended): audit records per executed call when the audit
collaborator is configured — exactly one (with the result) on the
dry-run and successful paths, and exactly two on a throwing execution
(first the error record from the `catch`, then the result record with
the error text); none when unconfigured, and none for a call that fails
argument decoding.  Sink failures are swallowed inside `auditLog`
(`audit.ts` catches and ignores append errors), which the model reflects
by being total in all cases. -/
theorem OpenCode.execute_audit_records (env : OpenCode.ExecEnv)
    (call : OpenCode.ToolCall) :
    (env.auditConfigured = false → (OpenCode.execute env call).2 = []) ∧
    (∀ e, env.decode call.function.arguments = .error e →
      (OpenCode.execute env call).2 = []) ∧
    (∀ args, env.decode call.function.arguments = .ok args → env.dryRun = true →
      env.auditConfigured = true →
      (OpenCode.execute env call).2 =
        [{ tool := call.function.name, args := args
           result := some ("[DRY-RUN] Would execute: " ++ call.function.name ++
             "(" ++ args ++ ")") }]) ∧
    (∀ args out, env.decode call.function.arguments = .ok args →
      env.dryRun = false →
      OpenCode.dispatchTool env call.function.name args = .ok out →
      env.auditConfigured = true →
      (OpenCode.execute env call).2 =
        [{ tool := call.function.name, args := args, result := some out }]) ∧
    (∀ args m, env.decode call.function.arguments = .ok args →
      env.dryRun = false →
      OpenCode.dispatchTool env call.function.name args = .thrown m →
      env.auditConfigured = true →
      (OpenCode.execute env call).2 =
        [{ tool := call.function.name, args := args, error := some m },
         { tool := call.function.name, args := args
           result := some ("Error: " ++ m) }]) := by
  refine ⟨?_, ?_, ?_, ?_, ?_⟩
  · intro hcfg
    cases hd : env.decode call.function.arguments with
    | error e => simp [OpenCode.execute, hd]
    | ok args =>
      cases hdry : env.dryRun with
      | true => simp [OpenCode.execute, hd, hdry, OpenCode.auditEmit, hcfg]
      | false =>
        cases hdisp : OpenCode.dispatchTool env call.function.name args with
        | ok out => simp [OpenCode.execute, hd, hdry, hdisp, OpenCode.auditEmit, hcfg]
        | thrown m => simp [OpenCode.execute, hd, hdry, hdisp, OpenCode.auditEmit, hcfg]
  · intro e hd
    simp [OpenCode.execute, hd]
  · intro args hd hdry hcfg
    simp [OpenCode.execute, hd, hdry, OpenCode.auditEmit, hcfg]
  · intro args out hd hdry hdisp hcfg
    simp [OpenCode.execute, hd, hdry, hdisp, OpenCode.auditEmit, hcfg]
  · intro args m hd hdry hdisp hcfg
    simp [OpenCode.execute, hd, hdry, hdisp, OpenCode.auditEmit, hcfg]

/-- C7 witness: a successful execution with the audit collaborator
configured emits exactly one record carrying the result. -/
theorem OpenCode.execute_audit_records_witness :
    (OpenCode.execute OpenCode.exEnvBase OpenCode.exCall).2 =
      [{ tool := "read_file", args := "\x7b\x7d", result := some "output" }] :=
  (OpenCode.execute_audit_records OpenCode.exEnvBase OpenCode.exCall).2.2.2.1
    "\x7b\x7d" "output" rfl rfl rfl rfl

/-! ## C10 -/

/-- C10: a tool call whose id is absent or empty still executes
normally, and the returned result's `tool_call_id` is the freshly
generated id — non-empty and prefixed with `call_`; consequently, as
long as the fresh id differs from every id carried by the originating
assistant message (the generated suffix is random), the result's id
matches none of them. -/
theorem OpenCode.execute_fresh_id (env : OpenCode.ExecEnv)
    (call : OpenCode.ToolCall) (h : call.id = none ∨ call.id = some "") :
    (OpenCode.execute env call).1.tool_call_id = "call_" ++ env.freshSuffix ∧
    (OpenCode.execute env call).1.tool_call_id ≠ "" ∧
    OpenCode.jsStartsWith (OpenCode.execute env call).1.tool_call_id "call_" = true ∧
    (∀ msg : OpenCode.Message,
      (∀ c ∈ msg.tool_calls.getD [], c.id ≠ some ("call_" ++ env.freshSuffix)) →
      ∀ c ∈ msg.tool_calls.getD [],
        c.id ≠ some ((OpenCode.execute env call).1.tool_call_id)) := by
  have hid : (OpenCode.execute env call).1.tool_call_id =
      "call_" ++ env.freshSuffix := by
    rw [OpenCode.execute_tool_call_id]
    rcases h with h | h <;> simp [OpenCode.callIdOf, h]
  refine ⟨hid, ?_, ?_, ?_⟩
  · rw [hid]
    intro hemp
    have hd := congrArg String.data hemp
    rw [String.data_append] at hd
    have hnil : ("call_".data : List Char) = [] := (List.append_eq_nil.mp hd).1
    exact absurd hnil (by decide)
  · rw [hid]
    have : OpenCode.jsStartsWith ("call_" ++ env.freshSuffix) "call_" =
        ("call_".data.isPrefixOf ("call_".data ++ env.freshSuffix.data)) := by
      rw [OpenCode.jsStartsWith, String.data_append]
    rw [this]
    exact List.isPrefixOf_iff_prefix.mpr (List.prefix_append _ _)
  · intro msg hmsg c hc
    rw [hid]
    exact hmsg c hc

/-- C10 witness: the id-less fixture call gets the concrete fresh id. -/
theorem OpenCode.execute_fresh_id_witness :
    (OpenCode.execute OpenCode.exEnvBase OpenCode.exCallNoId).1.tool_call_id =
      "call_a1b2c3d4e" ∧ OpenCode.exCallNoId.id = none :=
  ⟨(OpenCode.execute_fresh_id OpenCode.exEnvBase OpenCode.exCallNoId
      (Or.inl rfl)).1.trans rfl, rfl⟩

/-! ## C5 -/

/-- When every transport response carries a non-empty tool-call list, the
loop runs all its remaining steps, each step appending exactly its
response and that response's tool results, and falls out with no
value. -/
theorem OpenCode.chatSteps_all_tools (llm : List OpenCode.Message → OpenCode.Message)
    (exec : OpenCode.ToolCall → OpenCode.ToolResult)
    (h : ∀ hs : List OpenCode.Message,
      ∃ l, (llm hs).tool_calls = some l ∧ l.isEmpty = false) :
    ∀ (n : Nat) (hs : List OpenCode.Message),
      OpenCode.chatSteps llm exec hs n =
        (.stepLimit, OpenCode.iterBlocks llm exec hs n) := by
  intro n
  induction n with
  | zero => intro hs; rfl
  | succ r ih =>
    intro hs
    obtain ⟨l, hl, hne⟩ := h hs
    simp only [OpenCode.chatSteps, hl, hne, Bool.false_eq_true, if_false]
    rw [ih]
    have hib : OpenCode.iterBlocks llm exec hs (r + 1) =
        OpenCode.iterBlocks llm exec (OpenCode.stepBlock llm exec hs) r := rfl
    rw [hib, OpenCode.stepBlock, hl]
    rfl

/-- C5: if every assistant response in a turn carries tool calls, the
chat loop executes exactly the step bound `maxSteps = 10` of steps and
then terminates without throwing (the model is a total function) and
without producing a return value (`ChatOutcome.stepLimit` — the source
falls out of the `while` and returns `undefined`); the final history is
exactly `maxSteps` nested step blocks — each block appends only the
assistant response and its dispatched tool results — so nothing is
appended after the tool results of the final step. -/
theorem OpenCode.agent_step_bound (llm : List OpenCode.Message → OpenCode.Message)
    (exec : OpenCode.ToolCall → OpenCode.ToolResult)
    (hist : List OpenCode.Message) (input : String)
    (h : ∀ hs : List OpenCode.Message,
      ∃ l, (llm hs).tool_calls = some l ∧ l.isEmpty = false) :
    OpenCode.agentChat llm exec hist input =
      (.stepLimit, OpenCode.iterBlocks llm exec
        (hist ++ [OpenCode.userMessage input]) OpenCode.maxSteps) ∧
    OpenCode.maxSteps = 10 := by
  constructor
  · rw [OpenCode.agentChat]
    exact OpenCode.chatSteps_all_tools llm exec h OpenCode.maxSteps _
  · rfl

/-- C5 witness: a transport oracle that always requests one tool runs a
turn to the step limit — no value is produced and the history holds the
user message plus ten blocks of one assistant message and one tool
result (21 messages). -/
theorem OpenCode.agent_step_bound_witness :
    (OpenCode.agentChat OpenCode.exLlmAllTools
        (fun c => (OpenCode.execute OpenCode.exEnvBase c).1) [] "go").1 =
      OpenCode.ChatOutcome.stepLimit ∧
    (OpenCode.agentChat OpenCode.exLlmAllTools
        (fun c => (OpenCode.execute OpenCode.exEnvBase c).1) [] "go").2.length = 21 := by
  have h := OpenCode.agent_step_bound OpenCode.exLlmAllTools
    (fun c => (OpenCode.execute OpenCode.exEnvBase c).1) [] "go"
    (fun _ => ⟨[OpenCode.exCall], rfl, rfl⟩)
  exact ⟨by rw [h.1], by decide⟩

/-! ## C8 -/

/-- C8 counterexample: a turn whose assistant message carries one
tool call with no id — the appended tool message's `tool_call_id` is the
freshly generated `call_a1b2c3d4e`, which is not an id present in the
assistant message's `tool_calls` (the only carried id is `none`). -/
theorem OpenCode.tool_message_fresh_id_counterexample :
    (OpenCode.agentChat OpenCode.exLlmNoId
        (fun c => (OpenCode.execute OpenCode.exEnvBase c).1) [] "go").2 =
      [OpenCode.userMessage "go",
       { role := .assistant, content := none
         tool_calls := some [OpenCode.exCallNoId] },
       { role := .tool, content := some "output"
         tool_call_id := some "call_a1b2c3d4e", name := some "read_file" },
       { role := .assistant, content := some "done" }] ∧
    some "call_a1b2c3d4e" ∉ [OpenCode.exCallNoId].map (fun c => c.id) :=
  ⟨rfl, by decide⟩

/-- C8 (amended): in every step whose assistant response carries tool
calls, the loop appends exactly one tool message per tool call, in
issuance order, before continuing; and provided every call carries a
non-empty id, each appended tool message's `tool_call_id` equals its
originating call's id (hence matches an id present in the assistant
message's `tool_calls`).  A call with an absent or empty id instead gets
a freshly generated id not carried by the assistant message. -/
theorem OpenCode.turn_tool_messages (env : OpenCode.ExecEnv)
    (llm : List OpenCode.Message → OpenCode.Message)
    (hist : List OpenCode.Message) (r : Nat) (calls : List OpenCode.ToolCall)
    (hcalls : (llm hist).tool_calls = some calls) (hne : calls.isEmpty = false)
    (hids : ∀ c ∈ calls, ∃ i, c.id = some i ∧ i ≠ "") :
    OpenCode.chatSteps llm (fun c => (OpenCode.execute env c).1) hist (r + 1) =
      OpenCode.chatSteps llm (fun c => (OpenCode.execute env c).1)
        (hist ++ [llm hist] ++
          calls.map (fun c => OpenCode.toToolMessage (OpenCode.execute env c).1)) r ∧
    (calls.map (fun c => OpenCode.toToolMessage (OpenCode.execute env c).1)).length =
      calls.length ∧
    calls.map (fun c =>
        (OpenCode.toToolMessage (OpenCode.execute env c).1).tool_call_id) =
      calls.map (fun c => c.id) := by
  refine ⟨?_, by simp, ?_⟩
  · simp only [OpenCode.chatSteps, hcalls, hne, Bool.false_eq_true, if_false]
  · apply List.map_congr_left
    intro c hc
    obtain ⟨i, hid, hine⟩ := hids c hc
    have hcid : (OpenCode.execute env c).1.tool_call_id = i := by
      rw [OpenCode.execute_tool_call_id]
      simp [OpenCode.callIdOf, hid, hine]
    simp [OpenCode.toToolMessage, hcid, hid]

/-- C8 witness: one step dispatching two id-carrying calls appends two
tool messages whose ids are exactly the calls' ids, in order. -/
theorem OpenCode.turn_tool_messages_witness :
    (([{ function := { name := "read_file", arguments := "\x7b\x7d" }
         id := some "call_A" },
       { function := { name := "list_files", arguments := "\x7b\x7d" }
         id := some "call_B" }] : List OpenCode.ToolCall).map (fun c =>
        (OpenCode.toToolMessage (OpenCode.execute OpenCode.exEnvBase c).1).tool_call_id)) =
      [some "call_A", some "call_B"] := by
  have h := OpenCode.turn_tool_messages OpenCode.exEnvBase
    (fun _ => { role := .assistant, content := none
                tool_calls := some [{ function := { name := "read_file", arguments := "\x7b\x7d" }
                                      id := some "call_A" },
                                    { function := { name := "list_files", arguments := "\x7b\x7d" }
                                      id := some "call_B" }] })
    [] 0
    [{ function := { name := "read_file", arguments := "\x7b\x7d" }, id := some "call_A" },
     { function := { name := "list_files", arguments := "\x7b\x7d" }, id := some "call_B" }]
    rfl rfl
    (by
      intro c hc
      rcases List.mem_cons.mp hc with rfl | hc2
      · exact ⟨"call_A", rfl, by decide⟩
      · rcases List.mem_cons.mp hc2 with rfl | hc3
        · exact ⟨"call_B", rfl, by decide⟩
        · cases hc3)
  exact h.2.2.trans (by decide)
